import Mathlib

/-!
# The UUID principal plugin of the ACL extension (`acl_uuid.c`)

A shallow embedding of `parse_who`, `format_who`, `extract_acl_entry_base`,
`who_matches` and the three SQL entry points of `acl_uuid.c`, followed by the
properties of the plugin contract.

Conventions of the embedding:

* a C string is a `List Char`; one `Char` stands for one `char` of the C
  string and the end of the list is the terminating NUL (a NUL inside the list
  ends the string earlier, exactly as it does for the C loop);
* a byte buffer (`char who[UUID_LEN]`, the data area of an array) is a
  `List Nat`;
* `ereport(ERROR, ...)` does not return: a function that can raise yields an
  `Except ErrorData _`;
* functions of the host server (`uuid_in`, `uuid_out`, `ArrayGetNItems`) and
  of the ACL engine (`check_access`, `merge_acls`, ...) are not part of
  `acl_uuid.c` and are taken as parameters; models of the three host
  functions are given separately and instantiate the parameters at concrete
  inputs.
-/

namespace AclUuid

/-! ## Host constants and error reports -/

/-- `UUID_LEN` of the host's `utils/uuid.h`. -/
def UUID_LEN : Nat := 16

/-- The SQLSTATE classes that occur in the plugin. -/
inductive SqlErrCode where
  | ERRCODE_INVALID_TEXT_REPRESENTATION
  | ERRCODE_PROGRAM_LIMIT_EXCEEDED
  deriving DecidableEq, Repr

/-- What `ereport(ERROR, (errcode(..), errmsg(..), errdetail(..)))` raises. -/
structure ErrorData where
  sqlerrcode : SqlErrCode
  message : String
  detail : String
  deriving DecidableEq, Repr

/-- The report raised by `parse_who` at lines 144-147. -/
def uuid_too_long : ErrorData :=
  { sqlerrcode := SqlErrCode.ERRCODE_INVALID_TEXT_REPRESENTATION
    message := "UUID too long"
    detail := "UUID must be exactly 36 characters." }

/-! ## libc -/

/-- `isalnum((unsigned char) c)` in the C locale: ASCII letters and digits. -/
def isalnum (c : Char) : Bool := c.isAlphanum

/-- `memcpy(dest, src, n)`: the first `n` bytes of `dest` are replaced by the
first `n` bytes of `src`. -/
def memcpy (dest src : List Nat) (n : Nat) : List Nat :=
  src.take n ++ dest.drop n

/-- `memcmp(a, b, n)`: zero when the first `n` bytes agree, otherwise the
difference of the first pair of bytes that differ.  Both regions are expected
to hold `n` bytes; the comparison stops where one of them ends. -/
def memcmp : List Nat → List Nat → Nat → Int
  | x :: a, y :: b, n + 1 => if x = y then memcmp a b n else (x : Int) - (y : Int)
  | _, _, _ => 0

/-- The C string stored in a character buffer: the characters before the
first NUL. -/
def cstring (buf : List Char) : List Char :=
  buf.takeWhile (fun c => c != '\x00')

/-! ## `parse_who` -/

/-- The locals of `parse_who` when its `for` loop is left, together with the
indices of `str` the loop has stored to (in order). -/
structure ParseWhoFrame where
  str : List Char
  len : Nat
  s : List Char
  char_stores : List Nat
  deriving DecidableEq, Repr

/-- The `for` loop of `parse_who` (lines 141-150).  `str` is the 37-byte local
buffer, `len` the number of characters stored so far, the last argument is the
input pointer `s`.  The result is the frame at loop exit and the error raised
by `ereport`, if any. -/
def parse_who_loop (str : List Char) (len : Nat) (stores : List Nat) :
    List Char → ParseWhoFrame × Option ErrorData
  | [] => (⟨str, len, [], stores⟩, none)
  | c :: s =>
    if c != '\x00' && (c == '-' || isalnum c) then
      if len ≥ 36 then
        (⟨str, len, c :: s, stores⟩, some uuid_too_long)
      else
        parse_who_loop (str.set len c) (len + 1) (stores ++ [len]) s
    else
      (⟨str, len, c :: s, stores⟩, none)

/-- Everything observable of one run of `parse_who`. -/
structure ParseWhoRun where
  /-- final contents of the local buffer `str` -/
  str : List Char
  /-- indices of `str` written by `str[len++] = *s`, in order -/
  char_stores : List Nat
  /-- index written by `str[len] = 0`, when that line is reached -/
  nul_store : Option Nat
  /-- the C string passed to `uuid_in`, when it is called -/
  uuid_in_arg : Option (List Char)
  /-- the destination buffer (the argument `void *` of `parse_who`) after the run -/
  dest : List Nat
  /-- the returned pointer (the rest of the input), or the error raised -/
  result : Except ErrorData (List Char)

/-- `parse_who(s, dest)` (lines 134-160); `dest` is the source's `void *`
argument, the buffer the identity is copied to.  `uuid_in` is the host's input
function of type `uuid`; `str0` is the (uninitialised) content of the local
buffer `char str[37]` on entry. -/
def parse_who (uuid_in : List Char → Except ErrorData (List Nat)) (str0 : List Char)
    (s : List Char) (dest : List Nat) : ParseWhoRun :=
  match parse_who_loop str0 0 [] s with
  | (f, some e) =>
    { str := f.str, char_stores := f.char_stores, nul_store := none,
      uuid_in_arg := none, dest := dest, result := .error e }
  | (f, none) =>
    let str := f.str.set f.len '\x00'
    match uuid_in (cstring str) with
    | .error e =>
      { str := str, char_stores := f.char_stores, nul_store := some f.len,
        uuid_in_arg := some (cstring str), dest := dest, result := .error e }
    | .ok uuid =>
      { str := str, char_stores := f.char_stores, nul_store := some f.len,
        uuid_in_arg := some (cstring str), dest := memcpy dest uuid UUID_LEN,
        result := .ok f.s }

/-- `format_who(out, who)` (lines 162-167): appends the host's `uuid_out`
text of the identity `who` (the source's `intptr_t` argument) to the string
buffer `out`. -/
def format_who (uuid_out : List Nat → List Char) (out : List Char) (who : List Nat) :
    List Char :=
  out ++ uuid_out who

/-! ## The entry record -/

/-- Modelled from the spec: the declaration of `AclEntryBase` (`acl.h`) is not
among the sources.  The header carries the fields the spec's data model names:
the permission mask, the entry kind and the inheritance flags. -/
structure AclEntryBase where
  permissionMask : Nat
  entryKind : Nat
  inheritanceFlag : Nat
  deriving DecidableEq, Repr

/-- `struct AclEntryUUID` (lines 30-34): the common header followed by the
`UUID_LEN` identity bytes. -/
structure AclEntryUUID where
  base : AclEntryBase
  who : List Nat
  deriving DecidableEq, Repr

/-- `ACL_TYPE_ALIGNMENT` (line 36). -/
def ACL_TYPE_ALIGNMENT : Char := 'i'

/-- `sizeof(AclEntryUUID)` by the C layout rules: `base` sits at offset 0,
`who` (byte alignment) directly behind it, and the total is rounded up to the
alignment of the header.  The size and alignment of `AclEntryBase` (declared
in `acl.h`) are parameters. -/
def sizeof_AclEntryUUID (sizeof_base alignof_base : Nat) : Nat :=
  (sizeof_base + UUID_LEN + alignof_base - 1) / alignof_base * alignof_base

/-- `ACL_TYPE_LENGTH` (line 37). -/
def ACL_TYPE_LENGTH (sizeof_base alignof_base : Nat) : Nat :=
  sizeof_AclEntryUUID sizeof_base alignof_base

/-- A pointer to a part `α` of a record `σ`: what is read through it and what
a store through it does to the record. -/
structure FieldPtr (σ α : Type) where
  load : σ → α
  store : σ → α → σ

/-- `extract_acl_entry_base(entry)` (lines 169-173).  Line 172 of the source
reads `return &((AclEntryUUID *UUIDPGetDatum) entry)->base;`: the type name of
the cast carries a stray identifier, so the statement is not valid C as it is
written and has no behaviour of its own to embed (the same cast at line 183 is
`(AclEntryUUID *) entry`).  This definition is the pointer to the member `base`
that the statement denotes once the stray identifier is dropped.  It stands
for the function pointer that the SQL entry points hand to the engine; no
property of the body of `extract_acl_entry_base` is derived from it. -/
def extract_acl_entry_base : FieldPtr AclEntryUUID AclEntryBase where
  load entry := entry.base
  store entry b := { entry with base := b }

/-! ## `who_matches` -/

/-- The parts of the host's `ArrayType` that `who_matches` reads: `ARR_NDIM`,
`ARR_DIMS` and the bytes at `ARR_DATA_PTR`. -/
structure ArrayType where
  ndim : Int
  dims : List Int
  data : List Nat
  deriving DecidableEq, Repr

/-- The `for` loop of `who_matches` (lines 189-200).  The first number is how
many iterations remain (`num - i`), the list is the memory at `ptr`.  A
matching candidate ends the loop with `true` (the `break`); `ptr` advances by
`UUID_LEN` bytes otherwise. -/
def who_matches_loop (entry_who : List Nat) : Nat → List Nat → Bool
  | 0, _ => false
  | n + 1, ptr =>
    if memcmp entry_who ptr UUID_LEN = 0 then true
    else who_matches_loop entry_who n (ptr.drop UUID_LEN)

/-- `who_matches(entry, who)` (lines 175-203).  `ArrayGetNItems` is the host's
item counter; it raises on a malformed dimension vector. -/
def who_matches (ArrayGetNItems : Int → List Int → Except ErrorData Int)
    (entry : AclEntryUUID) (who : ArrayType) : Except ErrorData Bool :=
  match ArrayGetNItems who.ndim who.dims with
  | .error e => .error e
  | .ok num => .ok (who_matches_loop entry.who num.toNat who.data)

/-! ## The SQL entry points -/

/-- `acl_uuid_check_access_int4` (lines 75-94).  `check_access_extract_args`
and `check_access` belong to the engine and are parameters; `none` is
`PG_RETURN_NULL()`. -/
def acl_uuid_check_access_int4 {Fcinfo Acl Mask Res : Type}
    (sizeof_base alignof_base : Nat)
    (ArrayGetNItems : Int → List Int → Except ErrorData Int)
    (check_access_extract_args : Fcinfo → Bool → Bool → Option (Acl × Mask × ArrayType × Bool))
    (check_access : Acl → Nat → Char → FieldPtr AclEntryUUID AclEntryBase → Mask → ArrayType →
      (AclEntryUUID → ArrayType → Except ErrorData Bool) → Bool → Res)
    (fcinfo : Fcinfo) : Option Res :=
  match check_access_extract_args fcinfo true true with
  | none => none
  | some (acl, mask, who, implicit_allow) =>
    some (check_access acl (ACL_TYPE_LENGTH sizeof_base alignof_base) ACL_TYPE_ALIGNMENT
      extract_acl_entry_base mask who (who_matches ArrayGetNItems) implicit_allow)

/-- `acl_uuid_check_access_text` (lines 96-116). -/
def acl_uuid_check_access_text {Fcinfo Acl Mask Res : Type}
    (sizeof_base alignof_base : Nat)
    (ArrayGetNItems : Int → List Int → Except ErrorData Int)
    (check_access_text_mask_extract_args :
      Fcinfo → Bool → Bool → Option (Acl × Mask × ArrayType × Bool))
    (check_access_text_mask : Acl → Nat → Char → FieldPtr AclEntryUUID AclEntryBase → Mask →
      ArrayType → (AclEntryUUID → ArrayType → Except ErrorData Bool) → Bool → Res)
    (fcinfo : Fcinfo) : Option Res :=
  match check_access_text_mask_extract_args fcinfo true true with
  | none => none
  | some (acl, mask, who, implicit_allow) =>
    some (check_access_text_mask acl (ACL_TYPE_LENGTH sizeof_base alignof_base)
      ACL_TYPE_ALIGNMENT extract_acl_entry_base mask who (who_matches ArrayGetNItems)
      implicit_allow)

/-- `acl_uuid_merge` (lines 118-132). -/
def acl_uuid_merge {Fcinfo Acl : Type}
    (sizeof_base alignof_base : Nat)
    (merge_acls_extract_args : Fcinfo → Acl × Acl × Bool × Bool)
    (merge_acls : Acl → Acl → Nat → Char → FieldPtr AclEntryUUID AclEntryBase → Bool → Bool → Acl)
    (fcinfo : Fcinfo) : Acl :=
  match merge_acls_extract_args fcinfo with
  | (parent, child, container, deny_first) =>
    merge_acls parent child (ACL_TYPE_LENGTH sizeof_base alignof_base) ACL_TYPE_ALIGNMENT
      extract_acl_entry_base container deny_first

/-! ## Models of the host functions

These follow the host server's `uuid.c` and `arrayutils.c`.  The plugin's own
functions above never refer to them; they instantiate the parameters. -/

/-- `isxdigit` in the C locale. -/
def isxdigit (c : Char) : Bool :=
  c.isDigit || (97 ≤ c.toNat && c.toNat ≤ 102) || (65 ≤ c.toNat && c.toNat ≤ 70)

/-- Value of a hexadecimal digit. -/
def hexval (c : Char) : Nat :=
  if c.isDigit then c.toNat - 48
  else if 97 ≤ c.toNat then c.toNat - 87
  else c.toNat - 55

/-- The digit loop of the host's `string_to_uuid`: `k` bytes remain to be
read.  Two hexadecimal digits give one byte; a hyphen is skipped after an odd
byte index other than the last. -/
def string_to_uuid_loop : Nat → List Char → Option (List Nat × List Char)
  | 0, src => some ([], src)
  | k + 1, c1 :: c2 :: src =>
    if isxdigit c1 && isxdigit c2 then
      let i := UUID_LEN - (k + 1)
      let src1 :=
        match src with
        | c :: rest => if c == '-' && i % 2 == 1 && i < UUID_LEN - 1 then rest else src
        | [] => src
      match string_to_uuid_loop k src1 with
      | some (bytes, rest) => some ((hexval c1 * 16 + hexval c2) :: bytes, rest)
      | none => none
    else none
  | _ + 1, _ => none

/-- The report of the host's `uuid_in` on a syntax error:
`errmsg("invalid input syntax for type %s: \"%s\"", "uuid", source)`. -/
def uuid_syntax_error (source : List Char) : ErrorData :=
  { sqlerrcode := SqlErrCode.ERRCODE_INVALID_TEXT_REPRESENTATION
    message := "invalid input syntax for type uuid: \"" ++ String.mk source ++ "\""
    detail := "" }

/-- The host's `uuid_in` (`string_to_uuid`): an optional pair of braces around
32 hexadecimal digits, with an optional hyphen after each group of four. -/
def pg_uuid_in (source : List Char) : Except ErrorData (List Nat) :=
  let braces := source.head? == some '\x7b'
  let src := if braces then source.drop 1 else source
  match string_to_uuid_loop UUID_LEN src with
  | none => .error (uuid_syntax_error source)
  | some (bytes, rest) =>
    let rest1 :=
      if braces then
        (match rest with
         | c :: r => if c == '\x7d' then some r else none
         | [] => none)
      else some rest
    match rest1 with
    | some [] => .ok bytes
    | _ => .error (uuid_syntax_error source)

/-- The digit table `"0123456789abcdef"` of the host's `uuid_out`. -/
def hex_char (n : Nat) : Char :=
  "0123456789abcdef".toList.getD n '0'

/-- The loop of the host's `uuid_out` from byte index `i` on. -/
def pg_uuid_out_loop (i : Nat) : List Nat → List Char
  | [] => []
  | b :: bs =>
    (if i = 4 ∨ i = 6 ∨ i = 8 ∨ i = 10 then ['-'] else []) ++
      [hex_char (b / 16 % 16), hex_char (b % 16)] ++ pg_uuid_out_loop (i + 1) bs

/-- The host's `uuid_out`: the canonical 8-4-4-4-12 text of the 16 bytes. -/
def pg_uuid_out (uuid : List Nat) : List Char :=
  pg_uuid_out_loop 0 (uuid.take UUID_LEN)

/-- The report of the host's `ArrayGetNItems` on an overflowing size:
`errmsg("array size exceeds the maximum allowed (%d)", (int) MaxArraySize)`. -/
def array_size_error : ErrorData :=
  { sqlerrcode := SqlErrCode.ERRCODE_PROGRAM_LIMIT_EXCEEDED
    message := "array size exceeds the maximum allowed (134217727)"
    detail := "" }

/-- The product loop of the host's `ArrayGetNItems`. -/
def pg_ArrayGetNItems_loop (ret : Int) : List Int → Except ErrorData Int
  | [] => .ok ret
  | d :: ds =>
    if d < 0 then .error array_size_error
    else if ret * d ≥ 2 ^ 31 then .error array_size_error
    else pg_ArrayGetNItems_loop (ret * d) ds

/-- The host's `ArrayGetNItems(ndim, dims)`: 0 for `ndim <= 0`, otherwise the
product of the first `ndim` dimensions, an error when it exceeds
`MaxArraySize`. -/
def pg_ArrayGetNItems (ndim : Int) (dims : List Int) : Except ErrorData Int :=
  if ndim ≤ 0 then .ok 0
  else
    match pg_ArrayGetNItems_loop 1 (dims.take ndim.toNat) with
    | .error e => .error e
    | .ok ret => if ret > 134217727 then .error array_size_error else .ok ret

/-! ## The vocabulary of the specification -/

/-- The characters an identity token is made of: letters, digits and the
separator `-`. -/
def isTokenChar (c : Char) : Bool :=
  c.isAlpha || c.isDigit || c == '-'

/-- The identity token of an input: its leading run of token characters. -/
def identity_token (s : List Char) : List Char :=
  s.takeWhile isTokenChar

/-- The `i`-th item of a candidate array of UUIDs: the `UUID_LEN` bytes at
offset `i * UUID_LEN` of its data area. -/
def candidate (c : ArrayType) (i : Nat) : List Nat :=
  (c.data.drop (i * UUID_LEN)).take UUID_LEN

/-! ## Auxiliary definitions for the statements -/

/-- The buffer `str` when `uuid_in` is called: the token, the terminating NUL
and what was in the buffer behind it. -/
def str_at_call (str0 : List Char) (s : List Char) : List Char :=
  identity_token s ++ '\x00' :: str0.drop ((identity_token s).length + 1)

/-- A sample identity: the UUID `a0eebc99-9c0b-4ef8-bb6d-6bb9bd380a11`. -/
def sample_uuid : List Nat :=
  [160, 238, 188, 153, 156, 11, 78, 248, 187, 109, 107, 185, 189, 56, 10, 17]

/-- A sample content of the uninitialised buffer `str`. -/
def sample_str0 : List Char := List.replicate 37 'Z'

/-- A zeroed destination, as `palloc0` leaves `entry->who` in `ace_uuid_in`. -/
def zero_who : List Nat := List.replicate 16 0

/-- A sample entry: a header and the sample identity. -/
def sample_entry : AclEntryUUID :=
  { base := { permissionMask := 3, entryKind := 0, inheritanceFlag := 0 }
    who := sample_uuid }

/-- A one-dimensional array of two UUIDs: the zero UUID and the sample
identity. -/
def sample_candidates : ArrayType :=
  { ndim := 1, dims := [2], data := zero_who ++ sample_uuid }

/-- A zero-dimensional array. -/
def empty_candidates : ArrayType :=
  { ndim := 0, dims := [], data := [] }

/-! ## Lemmas on `parse_who` -/

theorem loop_cond_eq (c : Char) :
    (c != '\x00' && (c == '-' || isalnum c)) = isTokenChar c := by
  by_cases h : c = '\x00'
  · subst h; decide
  · have h1 : (c != '\x00') = true := by simpa using h
    rw [h1]
    simp only [isalnum, isTokenChar, Char.isAlphanum, Bool.true_and]
    cases c.isAlpha <;> cases c.isDigit <;> cases (c == '-') <;> rfl

theorem isTokenChar_ne_nul (c : Char) (h : isTokenChar c = true) : (c != '\x00') = true := by
  rw [← loop_cond_eq] at h
  simp only [Bool.and_eq_true] at h
  exact h.1

theorem parse_who_loop_nil (str : List Char) (len : Nat) (stores : List Nat) :
    parse_who_loop str len stores [] = (⟨str, len, [], stores⟩, none) := rfl

theorem parse_who_loop_cons (str : List Char) (len : Nat) (stores : List Nat) (c : Char)
    (s : List Char) :
    parse_who_loop str len stores (c :: s) =
      if isTokenChar c then
        if len ≥ 36 then (⟨str, len, c :: s, stores⟩, some uuid_too_long)
        else parse_who_loop (str.set len c) (len + 1) (stores ++ [len]) s
      else (⟨str, len, c :: s, stores⟩, none) := by
  rw [parse_who_loop, loop_cond_eq]

theorem set_append_length (pre suf : List Char) (x c : Char) :
    (pre ++ x :: suf).set pre.length c = (pre ++ [c]) ++ suf := by
  induction pre with
  | nil => rfl
  | cons a pre ih => simp [List.set, ih]

theorem parse_who_loop_fits (s : List Char) :
    ∀ (pre suf : List Char) (stores : List Nat),
      pre.length + (identity_token s).length ≤ 36 →
      (identity_token s).length ≤ suf.length →
      parse_who_loop (pre ++ suf) pre.length stores s =
        (⟨pre ++ identity_token s ++ suf.drop (identity_token s).length,
          pre.length + (identity_token s).length,
          s.drop (identity_token s).length,
          stores ++ List.range' pre.length (identity_token s).length⟩, none) := by
  induction s with
  | nil => intro pre suf stores _ _; simp [identity_token, parse_who_loop_nil]
  | cons c s ih =>
    intro pre suf stores h36 hsuf
    rw [parse_who_loop_cons]
    by_cases hc : isTokenChar c = true
    · have htok : identity_token (c :: s) = c :: identity_token s := by
        simp [identity_token, List.takeWhile, hc]
      rw [htok] at h36 hsuf ⊢
      simp only [List.length_cons] at h36 hsuf
      cases suf with
      | nil => simp at hsuf
      | cons x suf =>
        simp only [List.length_cons, Nat.add_le_add_iff_right] at hsuf
        have hlen : ¬ pre.length ≥ 36 := by omega
        rw [if_pos hc, if_neg hlen, set_append_length]
        have := ih (pre ++ [c]) suf (stores ++ [pre.length]) (by simp; omega) hsuf
        simp only [List.length_append, List.length_singleton] at this
        rw [this]
        simp [List.range'_succ, Nat.add_assoc, Nat.add_comm 1]
    · have htok : identity_token (c :: s) = [] := by
        simp [identity_token, List.takeWhile, hc]
      rw [if_neg hc, htok]
      simp

theorem parse_who_loop_too_long (s : List Char) :
    ∀ (str : List Char) (len : Nat) (stores : List Nat),
      len ≤ 36 → 36 < len + (identity_token s).length →
      (parse_who_loop str len stores s).2 = some uuid_too_long := by
  induction s with
  | nil => intro str len stores h1 h2; simp [identity_token] at h2; omega
  | cons c s ih =>
    intro str len stores h1 h2
    rw [parse_who_loop_cons]
    by_cases hc : isTokenChar c = true
    · have htok : identity_token (c :: s) = c :: identity_token s := by
        simp [identity_token, List.takeWhile, hc]
      rw [htok, List.length_cons] at h2
      rw [if_pos hc]
      by_cases hlen : len ≥ 36
      · rw [if_pos hlen]
      · rw [if_neg hlen]
        exact ih _ _ _ (by omega) (by omega)
    · have htok : identity_token (c :: s) = [] := by
        simp [identity_token, List.takeWhile, hc]
      rw [htok] at h2
      simp at h2; omega

theorem parse_who_loop_stores (s : List Char) :
    ∀ (str : List Char) (len : Nat) (stores : List Nat), len ≤ 36 →
      len ≤ (parse_who_loop str len stores s).1.len ∧
      (parse_who_loop str len stores s).1.len ≤ 36 ∧
      (parse_who_loop str len stores s).1.char_stores =
        stores ++ List.range' len ((parse_who_loop str len stores s).1.len - len) := by
  induction s with
  | nil => intro str len stores h; simp [parse_who_loop_nil, h]
  | cons c s ih =>
    intro str len stores h
    rw [parse_who_loop_cons]
    by_cases hc : isTokenChar c = true
    · rw [if_pos hc]
      by_cases hlen : len ≥ 36
      · rw [if_pos hlen]; simp [h]
      · rw [if_neg hlen]
        obtain ⟨h1, h2, h3⟩ := ih (str.set len c) (len + 1) (stores ++ [len]) (by omega)
        refine ⟨by omega, h2, ?_⟩
        rw [h3]
        generalize (parse_who_loop (str.set len c) (len + 1) (stores ++ [len]) s).1.len = n at h1 h2
        have : n - len = (n - (len + 1)) + 1 := by omega
        rw [this, List.range'_succ, List.append_assoc]
        rfl
    · rw [if_neg hc]; simp [h]

theorem identity_token_all (s : List Char) : ∀ c ∈ identity_token s, isTokenChar c = true := by
  intro c hc
  exact List.mem_takeWhile_imp hc

theorem cstring_append_nul (tok rest : List Char) (h : ∀ c ∈ tok, isTokenChar c = true) :
    cstring (tok ++ '\x00' :: rest) = tok := by
  induction tok with
  | nil => simp [cstring, List.takeWhile]
  | cons c tok ih =>
    have hc : (c != '\x00') = true := isTokenChar_ne_nul c (h c (List.mem_cons_self _ _))
    have := ih (fun d hd => h d (List.mem_cons_of_mem _ hd))
    simp only [cstring] at this
    simp only [cstring, List.cons_append, List.takeWhile_cons, hc, if_true, this]

theorem parse_who_fits (uuid_in : List Char → Except ErrorData (List Nat))
    (str0 s : List Char) (dest : List Nat)
    (hstr : str0.length = 37) (hlen : (identity_token s).length ≤ 36) :
    parse_who uuid_in str0 s dest =
      match uuid_in (identity_token s) with
      | .error e =>
        { str := str_at_call str0 s,
          char_stores := List.range' 0 (identity_token s).length,
          nul_store := some (identity_token s).length,
          uuid_in_arg := some (identity_token s), dest := dest, result := .error e }
      | .ok uuid =>
        { str := str_at_call str0 s,
          char_stores := List.range' 0 (identity_token s).length,
          nul_store := some (identity_token s).length,
          uuid_in_arg := some (identity_token s), dest := memcpy dest uuid UUID_LEN,
          result := .ok (s.drop (identity_token s).length) } := by
  have hloop := parse_who_loop_fits s [] str0 [] (by simpa using hlen) (by omega)
  simp only [List.nil_append, List.length_nil, Nat.zero_add] at hloop
  have hdrop : ∃ x rest, str0.drop (identity_token s).length = x :: rest ∧
      rest = str0.drop ((identity_token s).length + 1) := by
    have hlt : (identity_token s).length < str0.length := by omega
    exact ⟨str0[(identity_token s).length], _, List.drop_eq_getElem_cons hlt, rfl⟩
  obtain ⟨x, rest, hx, hrest⟩ := hdrop
  have hset : (identity_token s ++ str0.drop (identity_token s).length).set
      (identity_token s).length '\x00' = str_at_call str0 s := by
    rw [hx, set_append_length, str_at_call, ← hrest]; simp
  have hcs : cstring (str_at_call str0 s) = identity_token s :=
    cstring_append_nul _ _ (identity_token_all s)
  unfold parse_who
  rw [hloop]
  simp only [hset, hcs]

theorem parse_who_too_long (uuid_in : List Char → Except ErrorData (List Nat))
    (str0 s : List Char) (dest : List Nat) (hlen : 36 < (identity_token s).length) :
    (parse_who uuid_in str0 s dest).result = .error uuid_too_long ∧
    (parse_who uuid_in str0 s dest).uuid_in_arg = none ∧
    (parse_who uuid_in str0 s dest).nul_store = none ∧
    (parse_who uuid_in str0 s dest).dest = dest := by
  have h := parse_who_loop_too_long s str0 0 [] (by omega) (by omega)
  unfold parse_who
  generalize parse_who_loop str0 0 [] s = r at h
  obtain ⟨f, e⟩ := r
  simp only at h
  subst h
  exact ⟨rfl, rfl, rfl, rfl⟩

theorem parse_who_loop_error (s : List Char) :
    ∀ (str : List Char) (len : Nat) (stores : List Nat) (e : ErrorData),
      (parse_who_loop str len stores s).2 = some e → e = uuid_too_long := by
  induction s with
  | nil => intro str len stores e h; simp [parse_who_loop_nil] at h
  | cons c s ih =>
    intro str len stores e h
    rw [parse_who_loop_cons] at h
    by_cases hc : isTokenChar c = true
    · rw [if_pos hc] at h
      by_cases hlen : len ≥ 36
      · rw [if_pos hlen] at h
        simp only [Option.some.injEq] at h
        exact h.symm
      · rw [if_neg hlen] at h
        exact ih _ _ _ e h
    · rw [if_neg hc] at h
      simp at h

theorem get_append_cons_length (l : List Char) (x : Char) (r : List Char) :
    (l ++ x :: r).get? l.length = some x := by
  induction l with
  | nil => rfl
  | cons a l ih => simpa using ih

theorem take_append_cons (l : List Char) (x : Char) (r : List Char) :
    (l ++ x :: r).take l.length = l := by
  induction l with
  | nil => rfl
  | cons a l ih => simp

theorem isxdigit_isTokenChar (c : Char) (h : isxdigit c = true) : isTokenChar c = true := by
  have a1 : (c.val ≥ 97) ↔ 97 ≤ c.toNat := Iff.rfl
  have a2 : (c.val ≤ 122) ↔ c.toNat ≤ 122 := Iff.rfl
  have a3 : (c.val ≥ 65) ↔ 65 ≤ c.toNat := Iff.rfl
  have a4 : (c.val ≤ 90) ↔ c.toNat ≤ 90 := Iff.rfl
  simp only [isxdigit, isTokenChar, Char.isAlpha, Char.isUpper, Char.isLower, Bool.or_eq_true,
    Bool.and_eq_true, decide_eq_true_eq, a1, a2, a3, a4] at h ⊢
  rcases h with (h | h) | h
  · exact Or.inl (Or.inr h)
  · exact Or.inl (Or.inl (Or.inr ⟨h.1, by omega⟩))
  · exact Or.inl (Or.inl (Or.inl ⟨h.1, by omega⟩))

theorem identity_token_eq_self (t : List Char) (h : ∀ c ∈ t, isTokenChar c = true) :
    identity_token t = t := by
  unfold identity_token
  exact List.takeWhile_eq_self_iff.mpr h

theorem identity_token_append (tok r : List Char) (htok : ∀ c ∈ tok, isTokenChar c = true)
    (hr : r = [] ∨ ∃ c r1, r = c :: r1 ∧ isTokenChar c = false) :
    identity_token (tok ++ r) = tok := by
  induction tok with
  | nil =>
    rcases hr with rfl | ⟨c, r1, rfl, hc⟩
    · rfl
    · simp [identity_token, List.takeWhile, hc]
  | cons a tok ih =>
    have ha := htok a (List.mem_cons_self _ _)
    have := ih (fun d hd => htok d (List.mem_cons_of_mem _ hd))
    simp only [identity_token] at this
    simp only [identity_token, List.cons_append, List.takeWhile_cons, ha, if_true, this]

theorem drop_identity_token (s : List Char) :
    s.drop (identity_token s).length = [] ∨
      ∃ c r1, s.drop (identity_token s).length = c :: r1 ∧ isTokenChar c = false := by
  induction s with
  | nil => left; rfl
  | cons a s ih =>
    by_cases ha : isTokenChar a = true
    · have : identity_token (a :: s) = a :: identity_token s := by
        simp [identity_token, List.takeWhile, ha]
      rw [this]; simpa using ih
    · have : identity_token (a :: s) = [] := by
        simp [identity_token, List.takeWhile, ha]
      rw [this]; right
      exact ⟨a, s, rfl, by simpa using ha⟩

theorem identity_token_append_drop (s : List Char) :
    identity_token s ++ s.drop (identity_token s).length = s := by
  have h : identity_token s = s.take (identity_token s).length := by
    have hp : identity_token s <+: s := List.takeWhile_prefix _
    exact (List.prefix_iff_eq_take.mp hp)
  conv_lhs => rw [h]
  simp only [List.length_take]
  rw [Nat.min_eq_left, List.take_append_drop]
  have hp : identity_token s <+: s := List.takeWhile_prefix _
  exact hp.length_le

/-! ## The plugin contract: `parse_who` and `format_who` -/

/-- C2: round trip.  When the host's `uuid_out` gives, for the 16-byte
identity `i`, a text of 36 characters that are hexadecimal digits or hyphens,
and the host's `uuid_in` maps that text back to `i`, then `parse_who` on the
text written by `format_who` succeeds, leaves exactly `i` in the destination
and returns the empty remainder. -/
theorem parse_who_format_who_roundtrip
    (uuid_in : List Char → Except ErrorData (List Nat)) (uuid_out : List Nat → List Char)
    (str0 : List Char) (i dest : List Nat)
    (hstr : str0.length = 37) (hi : i.length = UUID_LEN) (hdest : dest.length = UUID_LEN)
    (hlen : (uuid_out i).length = 36)
    (hchars : ∀ c ∈ uuid_out i, isxdigit c = true ∨ c = '-')
    (hinv : uuid_in (uuid_out i) = .ok i) :
    (parse_who uuid_in str0 (format_who uuid_out [] i) dest).result = .ok [] ∧
    (parse_who uuid_in str0 (format_who uuid_out [] i) dest).dest = i := by
  have htokc : ∀ c ∈ uuid_out i, isTokenChar c = true := by
    intro c hc
    rcases hchars c hc with h | h
    · exact isxdigit_isTokenChar c h
    · subst h; decide
  have htok : identity_token (uuid_out i) = uuid_out i := identity_token_eq_self _ htokc
  have hfmt : format_who uuid_out [] i = uuid_out i := by simp [format_who]
  rw [hfmt, parse_who_fits uuid_in str0 (uuid_out i) dest hstr (by rw [htok, hlen])]
  rw [htok, hinv]
  refine ⟨?_, ?_⟩
  · simp [hlen, List.drop_eq_nil_of_le]
  · simp only [memcpy]
    rw [List.take_of_length_le (by omega), List.drop_eq_nil_of_le (by omega)]
    simp

/-- C3: no silent truncation.  When the leading run of letters, digits and `-`
of the input is longer than 36 characters, `parse_who` raises
`InvalidTextRepresentation` with the message "UUID too long", does not call
`uuid_in`, and does not touch the destination. -/
theorem parse_who_rejects_long_token
    (uuid_in : List Char → Except ErrorData (List Nat)) (str0 s : List Char) (dest : List Nat)
    (hlong : 36 < (identity_token s).length) :
    (parse_who uuid_in str0 s dest).result =
      .error ⟨SqlErrCode.ERRCODE_INVALID_TEXT_REPRESENTATION, "UUID too long",
        "UUID must be exactly 36 characters."⟩ ∧
    (parse_who uuid_in str0 s dest).uuid_in_arg = none ∧
    (parse_who uuid_in str0 s dest).dest = dest := by
  obtain ⟨h1, h2, _, h4⟩ := parse_who_too_long uuid_in str0 s dest hlong
  exact ⟨h1, h2, h4⟩

/-- C5: on success `parse_who` has consumed exactly the maximal prefix of
letters, digits and `-`.  The input is `tok ++ r` with `tok` made of token
characters only and the returned remainder `r` empty or starting with another
character; `tok` is the string handed to `uuid_in`; the identity written is
`uuid_in tok`; and any other input with the same token gives the same
identity, whatever follows the token. -/
theorem parse_who_consumes_token
    (uuid_in : List Char → Except ErrorData (List Nat)) (str0 s r : List Char) (dest : List Nat)
    (hstr : str0.length = 37)
    (hok : (parse_who uuid_in str0 s dest).result = .ok r) :
    ∃ tok u,
      s = tok ++ r ∧
      (∀ c ∈ tok, isTokenChar c = true) ∧
      (r = [] ∨ ∃ c r1, r = c :: r1 ∧ isTokenChar c = false) ∧
      tok = identity_token s ∧
      (parse_who uuid_in str0 s dest).uuid_in_arg = some tok ∧
      uuid_in tok = .ok u ∧
      (parse_who uuid_in str0 s dest).dest = memcpy dest u UUID_LEN ∧
      (u.length = UUID_LEN → dest.length = UUID_LEN →
        (parse_who uuid_in str0 s dest).dest = u) ∧
      (∀ r2 : List Char, (r2 = [] ∨ ∃ c r3, r2 = c :: r3 ∧ isTokenChar c = false) →
        (parse_who uuid_in str0 (tok ++ r2) dest).result = .ok r2 ∧
        (parse_who uuid_in str0 (tok ++ r2) dest).dest =
          (parse_who uuid_in str0 s dest).dest) := by
  have hlen : (identity_token s).length ≤ 36 := by
    by_contra hcon
    have := (parse_who_too_long uuid_in str0 s dest (by omega)).1
    rw [this] at hok
    cases hok
  have hfit := parse_who_fits uuid_in str0 s dest hstr hlen
  rw [hfit] at hok ⊢
  cases hu : uuid_in (identity_token s) with
  | error e => rw [hu] at hok; cases hok
  | ok u =>
    rw [hu] at hok
    simp only [Except.ok.injEq] at hok
    refine ⟨identity_token s, u, ?_, identity_token_all s, ?_, rfl, rfl, hu, rfl, ?_, ?_⟩
    · rw [← hok]; exact (identity_token_append_drop s).symm
    · rw [← hok]; exact drop_identity_token s
    · intro h1 h2
      simp only [memcpy]
      rw [List.take_of_length_le (by omega), List.drop_eq_nil_of_le (by omega)]
      simp
    · intro r2 hr2
      have htok2 : identity_token (identity_token s ++ r2) = identity_token s :=
        identity_token_append _ _ (identity_token_all s) hr2
      rw [parse_who_fits uuid_in str0 (identity_token s ++ r2) dest hstr (by rw [htok2]; exact hlen)]
      rw [htok2, hu]
      simp

/-- C9: every access to the 37-byte buffer `str` is in bounds.  The loop
stores characters at the indices `0, 1, ..` in order, none beyond 35; the
terminating NUL goes to an index of at most 36; and when `uuid_in` is called
its argument has at most 36 characters and sits in the buffer followed by the
NUL. -/
theorem parse_who_buffer_in_bounds
    (uuid_in : List Char → Except ErrorData (List Nat)) (str0 s : List Char) (dest : List Nat)
    (hstr : str0.length = 37) :
    (∀ i ∈ (parse_who uuid_in str0 s dest).char_stores, i ≤ 35 ∧ i < str0.length) ∧
    (∀ i, (parse_who uuid_in str0 s dest).nul_store = some i → i ≤ 36 ∧ i < str0.length) ∧
    (∀ a, (parse_who uuid_in str0 s dest).uuid_in_arg = some a →
      a.length ≤ 36 ∧
      (parse_who uuid_in str0 s dest).str.length = 37 ∧
      (parse_who uuid_in str0 s dest).str.take a.length = a ∧
      (parse_who uuid_in str0 s dest).str.get? a.length = some '\x00' ∧
      (parse_who uuid_in str0 s dest).nul_store = some a.length) := by
  refine ⟨?_, ?_, ?_⟩
  · have hst := parse_who_loop_stores s str0 0 [] (by omega)
    have key : (parse_who uuid_in str0 s dest).char_stores =
        (parse_who_loop str0 0 [] s).1.char_stores := by
      unfold parse_who
      generalize parse_who_loop str0 0 [] s = q
      obtain ⟨f, e⟩ := q
      cases e with
      | some e => rfl
      | none => simp only; cases uuid_in (cstring (f.str.set f.len '\x00')) <;> rfl
    rw [key, hst.2.2]
    intro i hi
    simp only [List.nil_append, List.mem_range', Nat.sub_zero] at hi
    obtain ⟨k, hk, rfl⟩ := hi
    have := hst.2.1
    omega
  · have hst := parse_who_loop_stores s str0 0 [] (by omega)
    intro i hi
    have key : i = (parse_who_loop str0 0 [] s).1.len := by
      unfold parse_who at hi
      generalize parse_who_loop str0 0 [] s = q at hi
      obtain ⟨f, e⟩ := q
      cases e with
      | some e => cases hi
      | none =>
        simp only at hi
        cases huu : uuid_in (cstring (f.str.set f.len '\x00')) <;> rw [huu] at hi <;>
          simp only [Option.some.injEq] at hi <;> exact hi.symm
    have := hst.2.1
    omega
  · intro a ha
    by_cases hlen : (identity_token s).length ≤ 36
    · rw [parse_who_fits uuid_in str0 s dest hstr hlen] at ha ⊢
      have hs : (str_at_call str0 s).length = 37 := by
        simp only [str_at_call, List.length_append, List.length_cons, List.length_drop]
        omega
      cases hu : uuid_in (identity_token s) <;> rw [hu] at ha <;>
        simp only [Option.some.injEq] at ha <;> subst ha <;>
        refine ⟨hlen, hs, ?_, ?_, rfl⟩ <;>
        first
          | exact take_append_cons _ _ _
          | exact get_append_cons_length _ _ _
    · have := (parse_who_too_long uuid_in str0 s dest (by omega)).2.1
      rw [this] at ha
      cases ha

/-- C10: `parse_who` is atomic on its output.  Whenever it fails the
destination is as it was before the call, and the failure is either the
"UUID too long" report (raised before `uuid_in` is called) or the error of
`uuid_in`.  With the 37-byte buffer the two cases are told apart by the
identity token of the input: a token of more than 36 characters fails without
a call of `uuid_in`; otherwise `uuid_in` is called on the whole token, its
error is the failure of `parse_who`, and only when it accepts the whole token
is the destination written, with the identity it returned.  A destination that
has changed was therefore written after `uuid_in` accepted the whole token. -/
theorem parse_who_failure_keeps_dest
    (uuid_in : List Char → Except ErrorData (List Nat)) (str0 s : List Char) (dest : List Nat) :
    (∀ e, (parse_who uuid_in str0 s dest).result = .error e →
      (parse_who uuid_in str0 s dest).dest = dest ∧
      ((e = uuid_too_long ∧ (parse_who uuid_in str0 s dest).uuid_in_arg = none) ∨
       (∃ a, (parse_who uuid_in str0 s dest).uuid_in_arg = some a ∧ uuid_in a = .error e))) ∧
    ((parse_who uuid_in str0 s dest).dest ≠ dest →
      ∃ a u r, (parse_who uuid_in str0 s dest).uuid_in_arg = some a ∧ uuid_in a = .ok u ∧
        (parse_who uuid_in str0 s dest).result = .ok r ∧
        (parse_who uuid_in str0 s dest).dest = memcpy dest u UUID_LEN) ∧
    (str0.length = 37 →
      (36 < (identity_token s).length →
        (parse_who uuid_in str0 s dest).result = .error uuid_too_long ∧
        (parse_who uuid_in str0 s dest).uuid_in_arg = none ∧
        (parse_who uuid_in str0 s dest).dest = dest) ∧
      ((identity_token s).length ≤ 36 →
        (parse_who uuid_in str0 s dest).uuid_in_arg = some (identity_token s) ∧
        (∀ e, uuid_in (identity_token s) = .error e →
          (parse_who uuid_in str0 s dest).result = .error e ∧
          (parse_who uuid_in str0 s dest).dest = dest) ∧
        (∀ u, uuid_in (identity_token s) = .ok u →
          (parse_who uuid_in str0 s dest).result = .ok (s.drop (identity_token s).length) ∧
          (parse_who uuid_in str0 s dest).dest = memcpy dest u UUID_LEN)) ∧
      ((parse_who uuid_in str0 s dest).dest ≠ dest →
        ∃ u, (identity_token s).length ≤ 36 ∧
          (parse_who uuid_in str0 s dest).uuid_in_arg = some (identity_token s) ∧
          uuid_in (identity_token s) = .ok u ∧
          (parse_who uuid_in str0 s dest).result = .ok (s.drop (identity_token s).length) ∧
          (parse_who uuid_in str0 s dest).dest = memcpy dest u UUID_LEN)) := by
  refine ⟨?_, ?_, ?_⟩
  · have herr := parse_who_loop_error s str0 0 []
    unfold parse_who
    generalize parse_who_loop str0 0 [] s = q at herr
    obtain ⟨f, e0⟩ := q
    cases e0 with
    | some e0 =>
      refine fun e he => ⟨rfl, Or.inl ⟨?_, rfl⟩⟩
      simp only [Except.error.injEq] at he
      rw [← he]; exact herr e0 rfl
    | none =>
      simp only
      cases hu : uuid_in (cstring (f.str.set f.len '\x00')) with
      | error e1 =>
        refine fun e he => ⟨rfl, Or.inr ⟨_, rfl, ?_⟩⟩
        simp only [Except.error.injEq] at he
        rw [← he]; exact hu
      | ok u =>
        intro e he
        cases he
  · unfold parse_who
    generalize parse_who_loop str0 0 [] s = q
    obtain ⟨f, e0⟩ := q
    cases e0 with
    | some e0 => exact fun hne => absurd rfl hne
    | none =>
      simp only
      cases hu : uuid_in (cstring (f.str.set f.len '\x00')) with
      | error e1 => exact fun hne => absurd rfl hne
      | ok u => exact fun _ => ⟨_, u, f.s, rfl, hu, rfl, rfl⟩
  · intro hstr
    have hfit : (identity_token s).length ≤ 36 →
        (parse_who uuid_in str0 s dest).uuid_in_arg = some (identity_token s) ∧
        (∀ e, uuid_in (identity_token s) = .error e →
          (parse_who uuid_in str0 s dest).result = .error e ∧
          (parse_who uuid_in str0 s dest).dest = dest) ∧
        (∀ u, uuid_in (identity_token s) = .ok u →
          (parse_who uuid_in str0 s dest).result = .ok (s.drop (identity_token s).length) ∧
          (parse_who uuid_in str0 s dest).dest = memcpy dest u UUID_LEN) := by
      intro hlen
      rw [parse_who_fits uuid_in str0 s dest hstr hlen]
      refine ⟨?_, ?_, ?_⟩
      · cases uuid_in (identity_token s) <;> rfl
      · intro e he; rw [he]; exact ⟨rfl, rfl⟩
      · intro u hu; rw [hu]; exact ⟨rfl, rfl⟩
    refine ⟨fun hlong => ?_, hfit, fun hne => ?_⟩
    · obtain ⟨h1, h2, _, h4⟩ := parse_who_too_long uuid_in str0 s dest hlong
      exact ⟨h1, h2, h4⟩
    · by_cases hlen : (identity_token s).length ≤ 36
      · obtain ⟨h1, h2, h3⟩ := hfit hlen
        cases hu : uuid_in (identity_token s) with
        | error e => exact absurd (h2 e hu).2 hne
        | ok u => exact ⟨u, hlen, h1, rfl, (h3 u hu).1, (h3 u hu).2⟩
      · exact absurd (parse_who_too_long uuid_in str0 s dest (by omega)).2.2.2 hne

/-- Witness of C2 at the identity `a0eebc99-9c0b-4ef8-bb6d-6bb9bd380a11`, with
the host's `uuid_in` and `uuid_out`. -/
theorem parse_who_format_who_roundtrip_witness :
    (pg_uuid_out sample_uuid = "a0eebc99-9c0b-4ef8-bb6d-6bb9bd380a11".toList ∧
      pg_uuid_in (pg_uuid_out sample_uuid) = .ok sample_uuid) ∧
    ((parse_who pg_uuid_in sample_str0 (format_who pg_uuid_out [] sample_uuid)
        zero_who).result = .ok [] ∧
      (parse_who pg_uuid_in sample_str0 (format_who pg_uuid_out [] sample_uuid)
        zero_who).dest = sample_uuid) :=
  ⟨⟨by decide, by rfl⟩,
    parse_who_format_who_roundtrip pg_uuid_in pg_uuid_out sample_str0 sample_uuid zero_who
      (by decide) (by decide) (by decide) (by decide) (by decide) (by rfl)⟩

/-- Witness of C3: a run of 37 letters. -/
theorem parse_who_rejects_long_token_witness :
    36 < (identity_token (List.replicate 37 'a')).length ∧
    (parse_who pg_uuid_in sample_str0 (List.replicate 37 'a') zero_who).result =
      .error ⟨SqlErrCode.ERRCODE_INVALID_TEXT_REPRESENTATION, "UUID too long",
        "UUID must be exactly 36 characters."⟩ ∧
    (parse_who pg_uuid_in sample_str0 (List.replicate 37 'a') zero_who).uuid_in_arg = none ∧
    (parse_who pg_uuid_in sample_str0 (List.replicate 37 'a') zero_who).dest = zero_who :=
  ⟨by decide,
    parse_who_rejects_long_token pg_uuid_in sample_str0 (List.replicate 37 'a') zero_who
      (by decide)⟩

/-- C4: the code at the input `a0eebc999c0b4ef8bb6d6bb9bd380a11=r`.  The report
of `parse_who` says "UUID must be exactly 36 characters.", and the identity
token of this input has 32 characters, not 36.  Yet the loop of `parse_who`
stores all of them (the only check, `len >= 36`, never fires), the host's
`uuid_in` accepts 32 hexadecimal digits without hyphens, and `parse_who`
returns the remainder `=r` with the identity
`a0eebc99-9c0b-4ef8-bb6d-6bb9bd380a11` written: no error is raised. -/
theorem parse_who_accepts_32_digit_token :
    uuid_too_long.detail = "UUID must be exactly 36 characters." ∧
    identity_token "a0eebc999c0b4ef8bb6d6bb9bd380a11=r".toList =
      "a0eebc999c0b4ef8bb6d6bb9bd380a11".toList ∧
    (identity_token "a0eebc999c0b4ef8bb6d6bb9bd380a11=r".toList).length = 32 ∧
    (identity_token "a0eebc999c0b4ef8bb6d6bb9bd380a11=r".toList).length ≠ 36 ∧
    pg_uuid_in "a0eebc999c0b4ef8bb6d6bb9bd380a11".toList = .ok sample_uuid ∧
    (parse_who pg_uuid_in sample_str0 "a0eebc999c0b4ef8bb6d6bb9bd380a11=r".toList
      zero_who).char_stores = List.range 32 ∧
    (parse_who pg_uuid_in sample_str0 "a0eebc999c0b4ef8bb6d6bb9bd380a11=r".toList
      zero_who).uuid_in_arg = some "a0eebc999c0b4ef8bb6d6bb9bd380a11".toList ∧
    (parse_who pg_uuid_in sample_str0 "a0eebc999c0b4ef8bb6d6bb9bd380a11=r".toList
      zero_who).result = .ok "=r".toList ∧
    (parse_who pg_uuid_in sample_str0 "a0eebc999c0b4ef8bb6d6bb9bd380a11=r".toList
      zero_who).dest = sample_uuid :=
  ⟨by decide, by decide, by decide, by decide, by rfl, by decide, by decide, by rfl,
    by decide⟩

/-- Witness of C5: the entry text `a0eebc99-9c0b-4ef8-bb6d-6bb9bd380a11=r`. -/
theorem parse_who_consumes_token_witness :
    (parse_who pg_uuid_in sample_str0 "a0eebc99-9c0b-4ef8-bb6d-6bb9bd380a11=r".toList
      zero_who).result = .ok "=r".toList ∧
    ∃ tok u,
      "a0eebc99-9c0b-4ef8-bb6d-6bb9bd380a11=r".toList = tok ++ "=r".toList ∧
      (parse_who pg_uuid_in sample_str0 "a0eebc99-9c0b-4ef8-bb6d-6bb9bd380a11=r".toList
        zero_who).uuid_in_arg = some tok ∧
      pg_uuid_in tok = .ok u ∧
      (parse_who pg_uuid_in sample_str0 "a0eebc99-9c0b-4ef8-bb6d-6bb9bd380a11=r".toList
        zero_who).dest = memcpy zero_who u UUID_LEN :=
  ⟨by rfl,
    match parse_who_consumes_token pg_uuid_in sample_str0
      "a0eebc99-9c0b-4ef8-bb6d-6bb9bd380a11=r".toList "=r".toList zero_who (by decide)
      (by rfl) with
    | ⟨tok, u, h1, _, _, _, h5, h6, h7, _⟩ => ⟨tok, u, h1, h5, h6, h7⟩⟩

/-- Witness of C9: the entry text `a0eebc99-9c0b-4ef8-bb6d-6bb9bd380a11=r`. -/
theorem parse_who_buffer_in_bounds_witness :
    sample_str0.length = 37 ∧
    (parse_who pg_uuid_in sample_str0 "a0eebc99-9c0b-4ef8-bb6d-6bb9bd380a11=r".toList
      zero_who).char_stores = List.range 36 ∧
    (∀ i ∈ (parse_who pg_uuid_in sample_str0 "a0eebc99-9c0b-4ef8-bb6d-6bb9bd380a11=r".toList
      zero_who).char_stores, i ≤ 35 ∧ i < sample_str0.length) :=
  ⟨by decide, by decide,
    (parse_who_buffer_in_bounds pg_uuid_in sample_str0
      "a0eebc99-9c0b-4ef8-bb6d-6bb9bd380a11=r".toList zero_who (by decide)).1⟩

/-- Witness of C10: a 37-letter token fails before `uuid_in` is called, the
token `xyz` is handed whole to the host's `uuid_in`, which rejects it; both
leave the destination as it was. -/
theorem parse_who_failure_keeps_dest_witness :
    (sample_str0.length = 37 ∧ 36 < (identity_token (List.replicate 37 'a')).length ∧
      identity_token "xyz=r".toList = "xyz".toList ∧
      pg_uuid_in "xyz".toList = .error (uuid_syntax_error "xyz".toList)) ∧
    ((parse_who pg_uuid_in sample_str0 (List.replicate 37 'a') sample_uuid).result =
        .error uuid_too_long ∧
      (parse_who pg_uuid_in sample_str0 (List.replicate 37 'a') sample_uuid).uuid_in_arg = none ∧
      (parse_who pg_uuid_in sample_str0 (List.replicate 37 'a') sample_uuid).dest =
        sample_uuid) ∧
    ((parse_who pg_uuid_in sample_str0 "xyz=r".toList sample_uuid).result =
        .error (uuid_syntax_error "xyz".toList) ∧
      (parse_who pg_uuid_in sample_str0 "xyz=r".toList sample_uuid).dest = sample_uuid) :=
  ⟨⟨by decide, by decide, by decide, by rfl⟩,
    ((parse_who_failure_keeps_dest pg_uuid_in sample_str0 (List.replicate 37 'a')
      sample_uuid).2.2 (by decide)).1 (by decide),
    (((parse_who_failure_keeps_dest pg_uuid_in sample_str0 "xyz=r".toList
      sample_uuid).2.2 (by decide)).2.1 (by decide)).2.1
        (uuid_syntax_error "xyz".toList) (by rfl)⟩

/-! ## Lemmas on `who_matches` -/

theorem memcmp_eq_zero_iff (n : Nat) :
    ∀ (a b : List Nat), a.length = n → n ≤ b.length → (memcmp a b n = 0 ↔ b.take n = a) := by
  induction n with
  | zero =>
    intro a b ha _
    have : a = [] := List.length_eq_zero.mp ha
    subst this
    simp [memcmp]
  | succ n ih =>
    intro a b ha hb
    cases a with
    | nil => simp at ha
    | cons x a =>
      cases b with
      | nil => simp at hb
      | cons y b =>
        simp only [List.length_cons, Nat.add_right_cancel_iff, Nat.add_le_add_iff_right] at ha hb
        by_cases hxy : x = y
        · subst hxy
          simp only [memcmp, if_true, List.take_succ_cons, List.cons.injEq, true_and]
          exact ih a b ha hb
        · simp only [memcmp, if_neg hxy, List.take_succ_cons, List.cons.injEq]
          constructor
          · intro h; exact absurd (by omega : x = y) hxy
          · intro h; exact absurd h.1.symm hxy

theorem who_matches_loop_iff (entry_who : List Nat) (hwho : entry_who.length = UUID_LEN)
    (n : Nat) :
    ∀ ptr : List Nat, ptr.length = n * UUID_LEN →
      (who_matches_loop entry_who n ptr = true ↔
        ∃ i, i < n ∧ (ptr.drop (i * UUID_LEN)).take UUID_LEN = entry_who) := by
  induction n with
  | zero => intro ptr _; simp [who_matches_loop]
  | succ n ih =>
    intro ptr hptr
    have hge : UUID_LEN ≤ ptr.length := by
      rw [hptr]; exact Nat.le_mul_of_pos_left _ (Nat.succ_pos n)
    have hcmp := memcmp_eq_zero_iff UUID_LEN entry_who ptr hwho hge
    have hrest : (ptr.drop UUID_LEN).length = n * UUID_LEN := by
      rw [List.length_drop, hptr, Nat.succ_mul]; omega
    have hih := ih (ptr.drop UUID_LEN) hrest
    rw [who_matches_loop]
    by_cases h0 : memcmp entry_who ptr UUID_LEN = 0
    · rw [if_pos h0]
      simp only [true_iff]
      exact ⟨0, Nat.succ_pos n, by simpa using hcmp.mp h0⟩
    · rw [if_neg h0, hih]
      constructor
      · rintro ⟨i, hi, h⟩
        refine ⟨i + 1, by omega, ?_⟩
        rw [List.drop_drop] at h
        rw [Nat.succ_mul, Nat.add_comm (i * UUID_LEN)]
        exact h
      · rintro ⟨i, hi, h⟩
        cases i with
        | zero =>
          exfalso; apply h0; apply hcmp.mpr
          simpa using h
        | succ i =>
          refine ⟨i, by omega, ?_⟩
          rw [List.drop_drop]
          rw [Nat.succ_mul, Nat.add_comm (i * UUID_LEN)] at h
          exact h

/-! ## The plugin contract: `who_matches` and the engine calls -/

/-- C1: for an entry with a 16-byte identity and a candidate array of `num`
items (`num * 16` data bytes), `who_matches` returns true exactly when some
item `i < num` of the array, the 16 bytes at offset `16 * i`, equals the
identity of the entry byte for byte, and false otherwise. -/
theorem who_matches_iff_some_candidate
    (ArrayGetNItems : Int → List Int → Except ErrorData Int)
    (e : AclEntryUUID) (c : ArrayType) (num : Int)
    (hnum : ArrayGetNItems c.ndim c.dims = .ok num)
    (hdata : c.data.length = num.toNat * UUID_LEN)
    (hwho : e.who.length = UUID_LEN) :
    (who_matches ArrayGetNItems e c = .ok true ↔
      ∃ i, i < num.toNat ∧ candidate c i = e.who) ∧
    (who_matches ArrayGetNItems e c = .ok false ↔
      ¬ ∃ i, i < num.toNat ∧ candidate c i = e.who) := by
  have h := who_matches_loop_iff e.who hwho num.toNat c.data hdata
  simp only [who_matches, hnum, Except.ok.injEq, candidate]
  refine ⟨h, ?_⟩
  rw [← h]
  simp

/-- C6: with a candidate array of no items `who_matches` is false for every
entry; a zero-dimensional array is such an array for the host's
`ArrayGetNItems`. -/
theorem who_matches_empty_candidates
    (ArrayGetNItems : Int → List Int → Except ErrorData Int)
    (e : AclEntryUUID) (c : ArrayType) :
    (∀ num, ArrayGetNItems c.ndim c.dims = .ok num → num ≤ 0 →
      who_matches ArrayGetNItems e c = .ok false) ∧
    (c.ndim ≤ 0 →
      pg_ArrayGetNItems c.ndim c.dims = .ok 0 ∧
      who_matches pg_ArrayGetNItems e c = .ok false) := by
  refine ⟨fun num hnum h0 => ?_, fun hdim => ?_⟩
  · have : num.toNat = 0 := by omega
    simp [who_matches, hnum, this, who_matches_loop]
  · have : pg_ArrayGetNItems c.ndim c.dims = .ok 0 := by simp [pg_ArrayGetNItems, hdim]
    refine ⟨this, ?_⟩
    simp [who_matches, this, who_matches_loop]

theorem sizeof_AclEntryUUID_eq (sizeof_base alignof_base : Nat) (hpos : 0 < alignof_base)
    (hsize : alignof_base ∣ sizeof_base) (halign : alignof_base ∣ UUID_LEN) :
    sizeof_AclEntryUUID sizeof_base alignof_base = sizeof_base + UUID_LEN := by
  obtain ⟨k, hk⟩ := Nat.dvd_add hsize halign
  unfold sizeof_AclEntryUUID
  rw [hk]
  have h1 : (alignof_base * k + alignof_base - 1) / alignof_base = k := by
    have h2 : alignof_base * k + alignof_base - 1 = alignof_base * k + (alignof_base - 1) := by
      omega
    rw [h2, Nat.mul_add_div hpos, Nat.div_eq_of_lt (by omega)]
    rfl
  rw [h1, Nat.mul_comm]

/-- C8: each of the three engine calls of the plugin receives the stride
`sizeof(AclEntryUUID)`, the alignment `'i'` and `extract_acl_entry_base`; the
two evaluation calls receive `who_matches` and the mask, candidate array and
implicit-allow flag exactly as the argument extraction delivered them; the
merge call passes the one stride for parent and child.  The stride is the
size of the header plus the 16 identity bytes whenever the alignment of the
header divides its size and 16. -/
theorem acl_uuid_engine_calls {Fcinfo Acl Mask MaskT Res ResT : Type}
    (sizeof_base alignof_base : Nat)
    (ArrayGetNItems : Int → List Int → Except ErrorData Int)
    (check_access_extract_args : Fcinfo → Bool → Bool → Option (Acl × Mask × ArrayType × Bool))
    (check_access : Acl → Nat → Char → FieldPtr AclEntryUUID AclEntryBase → Mask → ArrayType →
      (AclEntryUUID → ArrayType → Except ErrorData Bool) → Bool → Res)
    (check_access_text_mask_extract_args :
      Fcinfo → Bool → Bool → Option (Acl × MaskT × ArrayType × Bool))
    (check_access_text_mask : Acl → Nat → Char → FieldPtr AclEntryUUID AclEntryBase → MaskT →
      ArrayType → (AclEntryUUID → ArrayType → Except ErrorData Bool) → Bool → ResT)
    (merge_acls_extract_args : Fcinfo → Acl × Acl × Bool × Bool)
    (merge_acls : Acl → Acl → Nat → Char → FieldPtr AclEntryUUID AclEntryBase → Bool → Bool → Acl)
    (fcinfo : Fcinfo) :
    (∀ acl mask who implicit_allow,
      check_access_extract_args fcinfo true true = some (acl, mask, who, implicit_allow) →
      acl_uuid_check_access_int4 sizeof_base alignof_base ArrayGetNItems
          check_access_extract_args check_access fcinfo =
        some (check_access acl (sizeof_AclEntryUUID sizeof_base alignof_base) 'i'
          extract_acl_entry_base mask who (who_matches ArrayGetNItems) implicit_allow)) ∧
    (∀ acl mask who implicit_allow,
      check_access_text_mask_extract_args fcinfo true true =
        some (acl, mask, who, implicit_allow) →
      acl_uuid_check_access_text sizeof_base alignof_base ArrayGetNItems
          check_access_text_mask_extract_args check_access_text_mask fcinfo =
        some (check_access_text_mask acl (sizeof_AclEntryUUID sizeof_base alignof_base) 'i'
          extract_acl_entry_base mask who (who_matches ArrayGetNItems) implicit_allow)) ∧
    (∀ parent child container deny_first,
      merge_acls_extract_args fcinfo = (parent, child, container, deny_first) →
      acl_uuid_merge sizeof_base alignof_base merge_acls_extract_args merge_acls fcinfo =
        merge_acls parent child (sizeof_AclEntryUUID sizeof_base alignof_base) 'i'
          extract_acl_entry_base container deny_first) ∧
    (0 < alignof_base → alignof_base ∣ sizeof_base → alignof_base ∣ 16 →
      sizeof_AclEntryUUID sizeof_base alignof_base = sizeof_base + 16) := by
  refine ⟨?_, ?_, ?_, ?_⟩
  · intro acl mask who ia h
    simp only [acl_uuid_check_access_int4, h]
    rfl
  · intro acl mask who ia h
    simp only [acl_uuid_check_access_text, h]
    rfl
  · intro parent child container deny_first h
    simp only [acl_uuid_merge, h]
    rfl
  · intro hpos hsize halign
    exact sizeof_AclEntryUUID_eq sizeof_base alignof_base hpos hsize halign

/-- Witness of C1: the sample entry matches the second of two candidates and
does not match an array holding the zero UUID only. -/
theorem who_matches_iff_some_candidate_witness :
    (pg_ArrayGetNItems sample_candidates.ndim sample_candidates.dims = .ok 2 ∧
      candidate sample_candidates 1 = sample_entry.who) ∧
    who_matches pg_ArrayGetNItems sample_entry sample_candidates = .ok true :=
  ⟨⟨by rfl, by decide⟩,
    (who_matches_iff_some_candidate pg_ArrayGetNItems sample_entry sample_candidates 2
      (by rfl) (by decide) (by decide)).1.mpr ⟨1, by decide, by decide⟩⟩

/-- Witness of C6: the zero-dimensional array. -/
theorem who_matches_empty_candidates_witness :
    empty_candidates.ndim ≤ 0 ∧
    who_matches pg_ArrayGetNItems sample_entry empty_candidates = .ok false :=
  ⟨by decide,
    ((who_matches_empty_candidates pg_ArrayGetNItems sample_entry empty_candidates).2
      (by decide)).2⟩

/-- Witness of C8: an engine that reports the stride, alignment, mask and
implicit-allow flag it was called with, for a header of size 8 and
alignment 4. -/
theorem acl_uuid_engine_calls_witness :
    acl_uuid_check_access_int4 8 4 pg_ArrayGetNItems
        (fun (_ : Unit) _ _ => some ((0 : Nat), (5 : Nat), sample_candidates, true))
        (fun _ len align _ mask _ _ implicit_allow => (len, align, mask, implicit_allow)) () =
      some (24, 'i', 5, true) ∧
    sizeof_AclEntryUUID 8 4 = 8 + 16 :=
  ⟨(@acl_uuid_engine_calls Unit Nat Nat Nat (Nat × Char × Nat × Bool) Nat 8 4 pg_ArrayGetNItems
      (fun (_ : Unit) _ _ => some ((0 : Nat), (5 : Nat), sample_candidates, true))
      (fun _ len align _ mask _ _ implicit_allow => (len, align, mask, implicit_allow))
      (fun _ _ _ => none) (fun _ _ _ _ _ _ _ _ => 0)
      (fun _ => (0, 0, false, false)) (fun _ _ _ _ _ _ _ => 0) ()).1
      0 5 sample_candidates true rfl,
    (@acl_uuid_engine_calls Unit Nat Nat Nat (Nat × Char × Nat × Bool) Nat 8 4 pg_ArrayGetNItems
      (fun (_ : Unit) _ _ => some ((0 : Nat), (5 : Nat), sample_candidates, true))
      (fun _ len align _ mask _ _ implicit_allow => (len, align, mask, implicit_allow))
      (fun _ _ _ => none) (fun _ _ _ _ _ _ _ _ => 0)
      (fun _ => (0, 0, false, false)) (fun _ _ _ _ _ _ _ => 0) ()).2.2.2
      (by decide) (by decide) (by decide)⟩

end AclUuid
